import Mathlib

/-!
Verification of the faculty-scraper extraction core (src/app.py).

The pure string-processing logic (email normalization, extraction,
filtering and ranking; the pagination-vocabulary matcher; the
orchestration and deduplication loops) is embedded directly from the
source.  Third-party collaborators that the source calls but does not
implement (BeautifulSoup DOM parsing, tldextract registrable-domain
computation, urllib's urljoin, the HTTP fetcher, the translator) are
modelled as an explicit environment of abstract functions, exactly at
the call boundary the source uses.

Python regexes used by the source are embedded as dedicated matching
functions with Python semantics (leftmost match, greedy quantifiers,
ordered alternation, non-overlapping global substitution).  Character
classes follow Python's ASCII behaviour; `\s` is the ASCII whitespace
set, and case folding is ASCII case folding.
-/

namespace Scraper

/-! ## Basic character classes and string helpers -/

/-- Python `\s` (ASCII): space, tab, newline, carriage return, vertical tab, form feed. -/
def isPySpace (c : Char) : Bool :=
  c = ' ' || c = '\t' || c = '\n' || c = '\r' || c = '\x0b' || c = '\x0c'

def isLatinLetter (c : Char) : Bool :=
  ('a' ≤ c && c ≤ 'z') || ('A' ≤ c && c ≤ 'Z')

def isDigitCh (c : Char) : Bool :=
  '0' ≤ c && c ≤ '9'

/-- Character class `[A-Z0-9._%+-]` under `re.I` (the email local part). -/
def isLocalChar (c : Char) : Bool :=
  isLatinLetter c || isDigitCh c || c = '.' || c = '_' || c = '%' || c = '+' || c = '-'

/-- Character class `[A-Z0-9.-]` under `re.I` (the email domain body). -/
def isDomChar (c : Char) : Bool :=
  isLatinLetter c || isDigitCh c || c = '.' || c = '-'

/-- Character class `[A-Za-z0-9-]`. -/
def isAlnumDash (c : Char) : Bool :=
  isLatinLetter c || isDigitCh c || c = '-'

/-- Python `\w` (ASCII approximation): letters, digits, underscore. -/
def isWordChar (c : Char) : Bool :=
  isLatinLetter c || isDigitCh c || c = '_'

/-- ASCII case folding of a character (Python `.lower()` on ASCII letters). -/
def lc (c : Char) : Char := c.toLower

def lowerL (l : List Char) : List Char := l.map lc

/-- `s.lower()`. -/
def toLowerStr (s : String) : String := String.mk (lowerL s.data)

/-- Is `pre` a prefix of `l`? -/
def isPre : List Char → List Char → Bool
  | [], _ => true
  | _ :: _, [] => false
  | p :: ps, c :: cs => p = c && isPre ps cs

/-- Is `pre` (case-folded) a prefix of `l` under ASCII case-insensitive comparison? -/
def isPreCI : List Char → List Char → Bool
  | [], _ => true
  | _ :: _, [] => false
  | p :: ps, c :: cs => lc p = lc c && isPreCI ps cs

/-- Does `l` end with `suf`? -/
def endsL (l suf : List Char) : Bool :=
  decide (suf.length ≤ l.length) && decide (l.drop (l.length - suf.length) = suf)

/-- `a.endswith(b)` on strings. -/
def strEndsWith (a b : String) : Bool := endsL a.data b.data

/-- Is `n` a (contiguous) substring of `h`? -/
def isSubL (n h : List Char) : Bool :=
  match h with
  | [] => n.isEmpty
  | _ :: t => isPre n h || isSubL n t

/-- Case-insensitive substring test (`re.search` of a literal word with `re.I`). -/
def containsCI (hay needle : String) : Bool := isSubL (lowerL needle.data) (lowerL hay.data)

/-- Python `str.strip()` (ASCII whitespace). -/
def pyStrip (l : List Char) : List Char :=
  ((l.dropWhile isPySpace).reverse.dropWhile isPySpace).reverse

def pyStripS (s : String) : String := String.mk (pyStrip s.data)

def dropTrailingWhile (p : Char → Bool) (l : List Char) : List Char :=
  (l.reverse.dropWhile p).reverse

/-- Auxiliary for `runsOf`: `cur` is the current run, reversed. -/
def runsOfAux (p : Char → Bool) : List Char → List Char → List (List Char)
  | [], cur => if cur.isEmpty then [] else [cur.reverse]
  | c :: cs, cur =>
    if p c then runsOfAux p cs (c :: cur)
    else if cur.isEmpty then runsOfAux p cs []
    else cur.reverse :: runsOfAux p cs []

/-- Maximal runs of characters satisfying `p`, in order: `re.findall(r"[class]+", s)`. -/
def runsOf (p : Char → Bool) (l : List Char) : List (List Char) :=
  runsOfAux p l []

/-- Fuel-driven worker for `replaceL`: each step either copies one character or
consumes one nonempty needle occurrence, so `l.length` steps always suffice.
(Structural recursion on the fuel keeps the function kernel-reducible.) -/
def replaceLF (n r : List Char) : Nat → List Char → List Char
  | 0, l => l
  | fuel + 1, l =>
    match l with
    | [] => []
    | c :: cs =>
      if n.length ≠ 0 ∧ isPre n l = true then r ++ replaceLF n r fuel (l.drop n.length)
      else c :: replaceLF n r fuel cs

/-- Python `str.replace(needle, repl)`: global, left-to-right, non-overlapping. -/
def replaceL (n r : List Char) (l : List Char) : List Char :=
  replaceLF n r l.length l

/-- Python `str.replace` on `String`s. -/
def replaceStr (s needle repl : String) : String :=
  String.mk (replaceL needle.data repl.data s.data)

/-- Worker for `splitDelim`.  The state is `Sum.inl cur` while accumulating a
segment (reversed) and `Sum.inr ()` while inside a delimiter run. -/
def splitDelimGo (isD : Char → Bool) : List Char → Sum (List Char) Unit → List (List Char)
  | [], Sum.inl cur => [cur.reverse]
  | [], Sum.inr _ => [[]]
  | c :: cs, Sum.inl cur =>
    if isD c then cur.reverse :: splitDelimGo isD cs (Sum.inr ())
    else splitDelimGo isD cs (Sum.inl (c :: cur))
  | c :: cs, Sum.inr _ =>
    if isD c then splitDelimGo isD cs (Sum.inr ())
    else splitDelimGo isD cs (Sum.inl [c])

/-- Python `re.split(r"[D]+", s)`: segments between maximal delimiter runs,
with empty segments at the edges when the string starts or ends with a delimiter. -/
def splitDelim (isD : Char → Bool) (l : List Char) : List (List Char) :=
  splitDelimGo isD l (Sum.inl [])

/-- Worker for `splitKeepWs`.  The state is `Sum.inl cur` while accumulating a
non-space segment (reversed) and `Sum.inr run` inside a whitespace run
(accumulated reversed). -/
def splitKeepGo : List Char → Sum (List Char) (List Char) → List (List Char)
  | [], Sum.inl cur => [cur.reverse]
  | [], Sum.inr run => [run.reverse, []]
  | c :: cs, Sum.inl cur =>
    if isPySpace c then cur.reverse :: splitKeepGo cs (Sum.inr [c])
    else splitKeepGo cs (Sum.inl (c :: cur))
  | c :: cs, Sum.inr run =>
    if isPySpace c then splitKeepGo cs (Sum.inr (c :: run))
    else run.reverse :: splitKeepGo cs (Sum.inl [c])

/-- Python `re.split(r"(\s+)", s)`: segments and the whitespace separators, interleaved. -/
def splitKeepWs (l : List Char) : List (List Char) :=
  splitKeepGo l (Sum.inl [])

/-- Auxiliary for `collapseWs`: the flag records whether we are inside a whitespace run. -/
def collapseWsAux : List Char → Bool → List Char
  | [], _ => []
  | c :: cs, inRun =>
    if isPySpace c then
      if inRun then collapseWsAux cs true else ' ' :: collapseWsAux cs true
    else c :: collapseWsAux cs false

/-- Python `re.sub(r"\s+", " ", s)`: collapse each whitespace run to a single space. -/
def collapseWs (l : List Char) : List Char :=
  collapseWsAux l false

/-- Python `email.split(sep, 1)` when `sep` occurs: the parts before and after the
first occurrence; `none` when `sep` does not occur. -/
def splitFirst (sep : Char) (s : String) : Option (String × String) :=
  let pre := s.data.takeWhile (fun c => c ≠ sep)
  match s.data.drop pre.length with
  | [] => none
  | _ :: post => some (String.mk pre, String.mk post)

/-! ## Text normalization utilities (src/app.py lines 327-345) -/

/-- The trailing-punctuation class of `TRAIL_CLEAN` / `TRAILING_PUNCT`:
`[，,；;。、\s]`. -/
def isTrailPunct (c : Char) : Bool :=
  c = '，' || c = ',' || c = '；' || c = ';' || c = '。' || c = '、' || isPySpace c

/-- `strip_trailing_punct` (src/app.py line 329): strip, then delete the trailing
run of CJK/Latin punctuation and whitespace.  Empty strings are returned as-is. -/
def strip_trailing_punct (s : String) : String :=
  if s = "" then s
  else String.mk (dropTrailingWhile isTrailPunct (pyStrip s.data))

/-- `text_of` (src/app.py line 332) applied to the externally computed
`el.get_text(" ", strip=True)` string: fix the mis-decoded full-width colon,
collapse whitespace runs, strip trailing punctuation. -/
def text_of (gettext : String) : String :=
  strip_trailing_punct (String.mk (collapseWs (replaceL "ï¼š".data "：".data gettext.data)))

/-- `looks_like_human_name` (src/app.py line 363). -/
def looks_like_human_name (name : String) : Bool :=
  if name = "" then false
  else if ["About", "Home", "Team", "List", "Search", "Hot", "Institutions",
           "Laboratories", "Page"].any (fun w => containsCI name w) then false
  else if containsCI name "@" || containsCI name ".com" || containsCI name ".edu" ||
          containsCI name ".cn" then false
  else if name.data.any (fun c => 0x4e00 ≤ c.toNat && c.toNat ≤ 0x9fff) then true
  else
    let tokens := runsOf isLatinLetter name.data
    decide (2 ≤ tokens.length) && decide (3 ≤ (tokens.foldl (fun a t => a + t.length) 0))

/-! ## The email de-obfuscation rewrite (src/app.py lines 104-114, 389-410)

Each Python regex is embedded as a dedicated matcher with Python semantics.
A matcher takes the text at a candidate position and returns the remainder
after the (greedy, preference-ordered) match, or `none`. -/

/-- Consume an optional single character (`c?` in a regex). -/
def optChar (c : Char) (l : List Char) : List Char :=
  match l with
  | x :: t => if x = c then t else l
  | [] => l

/-- Matcher for `\s*OP?\s*TOK\s*CL?\s*` (re.I), the shape of token patterns 1, 2
and 4 (`[at]`, `(at)`, `[#]` with every bracket and space optional). -/
def mBracketTok (op cl : Char) (tok : List Char) (l : List Char) : Option (List Char) :=
  let l1 := l.dropWhile isPySpace
  let l2 := optChar op l1
  let l3 := l2.dropWhile isPySpace
  if isPreCI tok l3 then
    let t1 := (l3.drop tok.length).dropWhile isPySpace
    let t2 := optChar cl t1
    some (t2.dropWhile isPySpace)
  else none

/-- Token pattern 1: `\s*\[?\s*at\s*\]?\s*` → `@`. -/
def mAtBracket (l : List Char) : Option (List Char) := mBracketTok '[' ']' "at".data l

/-- Token pattern 2: `\s*\(?\s*at\s*\)?\s*` → `@`. -/
def mAtParen (l : List Char) : Option (List Char) := mBracketTok '(' ')' "at".data l

/-- Token pattern 3: `\s*＠\s*` → `@`. -/
def mFullAt (l : List Char) : Option (List Char) :=
  let l1 := l.dropWhile isPySpace
  match l1 with
  | '＠' :: t => some (t.dropWhile isPySpace)
  | _ => none

/-- Token pattern 4: `\s*\[?\s*#\s*\]?\s*` → `@`. -/
def mHashBracket (l : List Char) : Option (List Char) := mBracketTok '[' ']' "#".data l

/-- One bracketed-`dot` alternative of token pattern 5 (`\[\s*dot\s*\]` or the
brace form; no leading `\s*`). -/
def bracketDotAlt (op cl : Char) (l : List Char) : Option (List Char) :=
  match l with
  | c :: t =>
    if c = op then
      let t1 := t.dropWhile isPySpace
      if isPreCI "dot".data t1 then
        let t2 := (t1.drop 3).dropWhile isPySpace
        match t2 with
        | c2 :: r => if c2 = cl then some r else none
        | [] => none
      else none
    else none
  | [] => none

/-- Token pattern 5: `\s*\(\s*dot\s*\)|\[\s*dot\s*\]|\{\s*dot\s*\}` → `.`
(ordered alternation; the leading `\s*` belongs to the first alternative only). -/
def mDotBracket (l : List Char) : Option (List Char) :=
  let alt1 :=
    match l.dropWhile isPySpace with
    | '(' :: t =>
      let t1 := t.dropWhile isPySpace
      if isPreCI "dot".data t1 then
        match (t1.drop 3).dropWhile isPySpace with
        | ')' :: r => some r
        | _ => none
      else none
    | _ => none
  match alt1 with
  | some r => some r
  | none =>
    match bracketDotAlt '[' ']' l with
    | some r => some r
    | none => bracketDotAlt '\x7b' '\x7d' l

/-- Token pattern 6: `[（\)]?点[）\)]?` → `.`. -/
def mDian (l : List Char) : Option (List Char) :=
  let optClose := fun (r : List Char) =>
    match r with
    | x :: t => if x = '）' || x = ')' then t else r
    | [] => r
  match l with
  | c :: rest =>
    if c = '点' then some (optClose rest)
    else if c = '（' || c = ')' then
      match rest with
      | d :: r2 => if d = '点' then some (optClose r2) else none
      | [] => none
    else none
  | [] => none

/-- Token pattern 7: `\s+dot\s+` → `.`. -/
def mSpDot (l : List Char) : Option (List Char) :=
  let ws := l.takeWhile isPySpace
  if ws.isEmpty then none
  else
    let r := l.drop ws.length
    if isPreCI "dot".data r then
      let r2 := r.drop 3
      let ws2 := r2.takeWhile isPySpace
      if ws2.isEmpty then none else some (r2.drop ws2.length)
    else none

/-- Token pattern 8: `\s+at\s+` → `@`. -/
def mSpAt (l : List Char) : Option (List Char) :=
  let ws := l.takeWhile isPySpace
  if ws.isEmpty then none
  else
    let r := l.drop ws.length
    if isPreCI "at".data r then
      let r2 := r.drop 2
      let ws2 := r2.takeWhile isPySpace
      if ws2.isEmpty then none else some (r2.drop ws2.length)
    else none

/-- Token pattern 9: `\s*\(remove\)|\(no\s*spam\)` (re.I) → removed. -/
def mRemove (l : List Char) : Option (List Char) :=
  let alt1 :=
    match l.dropWhile isPySpace with
    | '(' :: t =>
      if isPreCI "remove".data t then
        match t.drop 6 with
        | ')' :: r => some r
        | _ => none
      else none
    | _ => none
  match alt1 with
  | some r => some r
  | none =>
    match l with
    | '(' :: t =>
      if isPreCI "no".data t then
        let t2 := (t.drop 2).dropWhile isPySpace
        if isPreCI "spam".data t2 then
          match t2.drop 4 with
          | ')' :: r => some r
          | _ => none
        else none
      else none
    | _ => none

/-- Fuel-driven worker for `subAll`: each step either copies one character or
consumes one nonempty match (the length guard enforces progress), so
`l.length` steps suffice. -/
def subAllF (m : List Char → Option (List Char)) (repl : List Char) :
    Nat → List Char → List Char
  | 0, l => l
  | fuel + 1, l =>
    match l with
    | [] => []
    | c :: cs =>
      match m l with
      | some rest =>
        if rest.length < l.length then repl ++ subAllF m repl fuel rest
        else c :: subAllF m repl fuel cs
      | none => c :: subAllF m repl fuel cs

/-- Python `pat.sub(repl, s)` for a constant replacement: scan left to right,
replace each non-overlapping leftmost match, resume after the match.  (All the
token patterns require at least one literal character, so matches are never
empty; the length guard makes that explicit.) -/
def subAll (m : List Char → Option (List Char)) (repl : List Char) (l : List Char) : List Char :=
  subAllF m repl l.length l

/-- The ordered `EMAIL_TOKEN_PATTERNS` substitution cascade (src/app.py line 104,
applied by `normalize_email` lines 393-394). -/
def tokenCascade (l : List Char) : List Char :=
  let s1 := subAll mAtBracket "@".data l
  let s2 := subAll mAtParen "@".data s1
  let s3 := subAll mFullAt "@".data s2
  let s4 := subAll mHashBracket "@".data s3
  let s5 := subAll mDotBracket ".".data s4
  let s6 := subAll mDian ".".data s5
  let s7 := subAll mSpDot ".".data s6
  let s8 := subAll mSpAt "@".data s7
  subAll mRemove [] s8

/-- The literal replacements of `normalize_email` (src/app.py lines 395-396):
full-width parentheses, then `[at]`, the brace-`at` form, `[dot]`, the
brace-`dot` form. -/
def litReplaces (l : List Char) : List Char :=
  let s1 := replaceL "（".data "(".data l
  let s2 := replaceL "）".data ")".data s1
  let s3 := replaceL "[at]".data "@".data s2
  let s4 := replaceL "\x7bat\x7d".data "@".data s3
  let s5 := replaceL "[dot]".data ".".data s4
  replaceL "\x7bdot\x7d".data ".".data s5

/-- The full email de-obfuscation rewrite: the ordered `EMAIL_TOKEN_PATTERNS`
substitutions followed by the literal bracket/full-width replacements, exactly
as applied by `normalize_email` (src/app.py lines 392-396). -/
def deobfuscate (s : String) : String :=
  String.mk (litReplaces (tokenCascade s.data))

/-! ## The well-formed email pattern `BASIC_EMAIL_RE` (src/app.py line 84)

`[A-Z0-9._%+-]+@[A-Z0-9.-]+\.[A-Z]{2,24}` with `re.I`, used with `search`,
`finditer` and `fullmatch`. -/

/-- Find the largest index `a ≥ 1` (trying `a`, `a-1`, ...) such that `t` has a
`'.'` at `a` followed by at least two Latin letters.  This realizes the greedy
backtracking of `[A-Z0-9.-]+` before `\.[A-Z]{2,24}`: the quantifier prefers
the longest prefix, i.e. the rightmost viable dot. -/
def domFindDot (t : List Char) : Nat → Option Nat
  | 0 => none
  | a + 1 =>
    if t.get? (a + 1) == some '.' &&
       decide (2 ≤ ((t.drop (a + 2)).takeWhile isLatinLetter).length) then
      some (a + 1)
    else domFindDot t a

/-- Match `BASIC_EMAIL_RE` at the start of `l`, returning the matched text and
the remainder after the match. -/
def matchBasicAt (l : List Char) : Option (List Char × List Char) :=
  let loc := l.takeWhile isLocalChar
  if loc.isEmpty then none
  else
    match l.drop loc.length with
    | '@' :: r =>
      let t := r.takeWhile isDomChar
      match domFindDot t (t.length - 1) with
      | some a =>
        let lrun := (t.drop (a + 1)).takeWhile isLatinLetter
        let L := min 24 lrun.length
        some (loc ++ '@' :: (t.take (a + 1) ++ lrun.take L), r.drop (a + 1 + L))
      | none => none
    | _ => none

/-- `BASIC_EMAIL_RE.search`: the leftmost match. -/
def basicSearch : List Char → Option (List Char)
  | [] => none
  | c :: cs =>
    match matchBasicAt (c :: cs) with
    | some (m, _) => some m
    | none => basicSearch cs

/-- Fuel-driven worker for `basicFinditer` (every match is nonempty, so
`l.length` steps suffice). -/
def basicFinditerF : Nat → List Char → List (List Char)
  | 0, _ => []
  | fuel + 1, l =>
    match l with
    | [] => []
    | c :: cs =>
      match matchBasicAt l with
      | some (m, rest) =>
        if rest.length < l.length then m :: basicFinditerF fuel rest
        else m :: basicFinditerF fuel cs
      | none => basicFinditerF fuel cs

/-- `BASIC_EMAIL_RE.finditer`: all non-overlapping matches, left to right. -/
def basicFinditer (l : List Char) : List (List Char) :=
  basicFinditerF l.length l

/-- `BASIC_EMAIL_RE.fullmatch`: a nonempty all-local-chars part before the first
`@`, then a nonempty domain body, a dot, and 2-24 trailing Latin letters. -/
def basicFullmatch (l : List Char) : Bool :=
  let loc := l.takeWhile (fun c => c ≠ '@')
  match l.drop loc.length with
  | '@' :: r =>
    let revR := r.reverse
    let letters := revR.takeWhile isLatinLetter
    (decide (loc ≠ []) && loc.all isLocalChar) &&
    (match revR.drop letters.length with
     | '.' :: preRev =>
       decide (2 ≤ letters.length) && decide (letters.length ≤ 24) &&
       decide (preRev ≠ []) && preRev.all isDomChar
     | _ => false)
  | _ => false

/-! ## `normalize_email` and `extract_emails` (src/app.py lines 389-430) -/

/-- Match `([A-Za-z0-9._%+-]+)\s+([A-Za-z0-9.-]+\.[A-Za-z]{2,24})` at the start
of `l`, returning the two capture groups. -/
def matchM2At (l : List Char) : Option (List Char × List Char) :=
  let g1 := l.takeWhile isLocalChar
  if g1.isEmpty then none
  else
    let r1 := l.drop g1.length
    let ws := r1.takeWhile isPySpace
    if ws.isEmpty then none
    else
      let r2 := r1.drop ws.length
      let t := r2.takeWhile isDomChar
      match domFindDot t (t.length - 1) with
      | some a =>
        let lrun := (t.drop (a + 1)).takeWhile isLatinLetter
        let L := min 24 lrun.length
        some (g1, t.take (a + 1) ++ lrun.take L)
      | none => none

/-- Leftmost match (search) of the space-split-domain pattern `m2`. -/
def m2Search : List Char → Option (List Char × List Char)
  | [] => none
  | c :: cs =>
    match matchM2At (c :: cs) with
    | some g => some g
    | none => m2Search cs

/-- The ordered TLD alternation `(edu|ac|com|org|cn|uk|de|fr|jp|kr)` (re.I). -/
def tldList : List (List Char) :=
  ["edu".data, "ac".data, "com".data, "org".data, "cn".data,
   "uk".data, "de".data, "fr".data, "jp".data, "kr".data]

/-- Match `([A-Za-z0-9._%+-]+)\s+(([A-Za-z0-9-]+)\s+(edu|...)(\s+\w{2})?)` (re.I)
at the start of `l`, returning groups 1 and 2. -/
def matchM3At (l : List Char) : Option (List Char × List Char) :=
  let g1 := l.takeWhile isLocalChar
  if g1.isEmpty then none
  else
    let r1 := l.drop g1.length
    let ws1 := r1.takeWhile isPySpace
    if ws1.isEmpty then none
    else
      let r2 := r1.drop ws1.length
      let b := r2.takeWhile isAlnumDash
      if b.isEmpty then none
      else
        let r3 := r2.drop b.length
        let ws2 := r3.takeWhile isPySpace
        if ws2.isEmpty then none
        else
          let r4 := r3.drop ws2.length
          match tldList.find? (fun t => isPreCI t r4) with
          | some tldPat =>
            let tld := r4.take tldPat.length
            let r5 := r4.drop tldPat.length
            let ws3 := r5.takeWhile isPySpace
            let tail2 := (r5.drop ws3.length).takeWhile isWordChar
            let optPart :=
              if !ws3.isEmpty && decide (2 ≤ tail2.length) then
                ws3 ++ (r5.drop ws3.length).take 2
              else []
            some (g1, b ++ ws2 ++ tld ++ optPart)
          | none => none

/-- Leftmost match (search) of the token-split-domain pattern `m3`. -/
def m3Search : List Char → Option (List Char × List Char)
  | [] => none
  | c :: cs =>
    match matchM3At (c :: cs) with
    | some g => some g
    | none => m3Search cs

/-- The last `n` elements of a list (Python `l[-n:]`). -/
def lastN (n : Nat) (l : List α) : List α := l.drop (l.length - n)

/-- `".".join(parts)`. -/
def joinDots : List (List Char) → List Char
  | [] => []
  | [p] => p
  | p :: rest => p ++ '.' :: joinDots rest

/-- The `m3` reconstruction branch of `normalize_email` (src/app.py lines 404-409). -/
def m3Part (t : List Char) : Option String :=
  match m3Search t with
  | some (g1, g2) =>
    let parts := runsOf isAlnumDash g2
    let domain :=
      if 2 ≤ parts.length then joinDots (lastN 3 parts)
      else g2.map (fun c => if c = ' ' then '.' else c)
    let cand := g1 ++ '@' :: domain
    if basicFullmatch cand then some (String.mk cand) else none
  | none => none

/-- `normalize_email` (src/app.py line 389): rewrite obfuscation tokens, then try
the well-formed pattern, the space-split-domain pattern, and the
token-split-domain reconstruction, in that order. -/
def normalize_email (s : String) : Option String :=
  if s.data.isEmpty then none
  else
    let t := litReplaces (tokenCascade s.data)
    match basicSearch t with
    | some m => some (String.mk m)
    | none =>
      match m2Search t with
      | some (g1, g2) =>
        let cand := g1 ++ '@' :: g2
        if basicFullmatch cand then some (String.mk cand) else m3Part t
      | none => m3Part t

/-- The token delimiter class `[\s,;|/<>]` of `extract_emails`. -/
def isTokDelim (c : Char) : Bool :=
  isPySpace c || c = ',' || c = ';' || c = '|' || c = '/' || c = '<' || c = '>'

/-- First-seen-order deduplication of the candidate list. -/
def uniqFirstAux : List String → List String → List String
  | _, [] => []
  | seen, e :: rest =>
    if seen.contains e then uniqFirstAux seen rest
    else e :: uniqFirstAux (e :: seen) rest

/-- `extract_emails` (src/app.py line 412): well-formed matches in the raw text,
then de-obfuscated single tokens, then de-obfuscated 5-piece sliding windows
over the whitespace-interleaved split, deduplicated in first-seen order. -/
def extract_emails (s : String) : List String :=
  if s.data.isEmpty then []
  else
    let cands1 := (basicFinditer s.data).map String.mk
    let toks := splitDelim isTokDelim s.data
    let cands2 := toks.filterMap (fun t => normalize_email (String.mk t))
    let ws := splitKeepWs s.data
    let cands3 := (List.range (ws.length - 4)).filterMap
      (fun i => normalize_email (String.mk ((ws.drop i).take 5).flatten))
    uniqFirstAux [] (cands1 ++ cands2 ++ cands3)

/-! ## Email filtering and ranking (src/app.py lines 82-95, 432-487) -/

/-- `GENERIC_EMAIL_USERS` (src/app.py line 86). -/
def GENERIC_EMAIL_USERS : List String :=
  ["info", "contact", "office", "admissions", "apply", "enquiry", "enquiries",
   "inquiries", "inquiry", "press", "media", "pr", "marketing", "outreach",
   "external", "international", "webmaster", "noreply", "no-reply", "admin",
   "administrator", "root", "support", "help", "service", "services", "career",
   "careers", "hr", "jobs", "recruit", "recruitment", "news", "events", "alumni",
   "oic", "promote", "postmaster", "security", "abuse", "secretary", "office-of",
   "frontdesk", "student", "students", "library", "postgrad", "undergrad"]

/-- `PERSONAL_FREE_DOMAINS` (src/app.py line 93). -/
def PERSONAL_FREE_DOMAINS : List String :=
  ["gmail.com", "outlook.com", "hotmail.com", "yahoo.com", "yahoo.co.uk",
   "proton.me", "icloud.com", "qq.com", "163.com", "126.com", "yeah.net"]

/-- `email_is_generic` (src/app.py line 444): the local part, lowercased, is a known
generic mailbox name or starts with a no-reply/noreply/postmaster prefix. -/
def email_is_generic (localPart : String) : Bool :=
  let l := toLowerStr localPart
  GENERIC_EMAIL_USERS.contains l || isPre "no-reply".data l.data ||
    isPre "noreply".data l.data || isPre "postmaster".data l.data

/-- Does `s` end with `pre` followed by between 2 and `m` trailing Latin letters,
where `m` is the length of the maximal trailing letter run?  This realizes the
`\.edu\.[a-z]{2,}$`-style alternatives of `ACADEMIC_EMAIL_PREF` as suffix tests. -/
def endsWithDotLetters (s : List Char) (pre : List Char) : Bool :=
  let m := (s.reverse.takeWhile isLatinLetter).length
  (List.range (m + 1)).any (fun k => decide (2 ≤ k) && endsL (s.take (s.length - k)) pre)

/-- Existence of a match of `ACADEMIC_EMAIL_PREF` =
`\.(edu(\.[a-z]{2})?|ac(\.[a-z]{2})?|edu\.[a-z]{2,}|ac\.[a-z]{2,}|cn|org)$` (re.I)
in a string: every alternative is anchored at `$`, so search reduces to suffix
tests on the case-folded string.  Python's `$` also matches just before a final
newline, and since every alternative ends in a letter a trailing newline is
simply discarded. -/
def acadSuffixMatch (t : List Char) : Bool :=
  let s := if endsL t ['\n'] then t.dropLast else t
  endsL s ".edu".data || endsL s ".ac".data || endsL s ".cn".data ||
    endsL s ".org".data || endsWithDotLetters s ".edu.".data ||
    endsWithDotLetters s ".ac.".data

/-- `is_academic_domain` (src/app.py line 441):
`ACADEMIC_EMAIL_PREF.search("." + domain.lower())`. -/
def is_academic_domain (domain : String) : Bool :=
  acadSuffixMatch ('.' :: lowerL domain.data)

/-- `email_allowed` (src/app.py line 448): keep only teaching-looking institutional
emails — reject generic users and free-mail providers, accept same registered
domain unconditionally, otherwise require an academic TLD. -/
def email_allowed (email : String) (site_regdom : String) : Bool :=
  match splitFirst '@' email with
  | none => false
  | some (loc, domain) =>
    let dl := toLowerStr domain
    let ll := toLowerStr loc
    if email_is_generic ll then false
    else if PERSONAL_FREE_DOMAINS.contains dl then false
    else if site_regdom ≠ "" && (dl = site_regdom || strEndsWith dl ("." ++ site_regdom)) then
      true
    else is_academic_domain dl

/-- The domain of a candidate string: the part after the first `@`, or `""`
when there is no `@`. -/
def emailDomain (e : String) : String :=
  match splitFirst '@' e with
  | some (_, dm) => dm
  | none => ""

/-- `name_affinity` (src/app.py line 432): count the alphabetic name tokens of
length at least 2 that are substrings of, or contain, the lowercased local part. -/
def name_affinity (name : String) (local_part : String) : Nat :=
  let tokens := (runsOf isLatinLetter name.data).map lowerL
  let locl := lowerL local_part.data
  tokens.foldl (fun score t =>
    if 2 ≤ t.length && (isSubL t locl || isSubL locl t) then score + 1 else score) 0

/-- The composite ranking key of `pick_best_email` (src/app.py line 484):
`(-same_domain, -academic, -affinity, min(len(local), 20))`, lower is better. -/
def emailKey (name site_regdom localPart domain : String) : Int × Int × Int × Int :=
  let sameDomain : Int :=
    if site_regdom ≠ "" &&
       (toLowerStr domain = site_regdom ||
        strEndsWith (toLowerStr domain) ("." ++ site_regdom)) then 1 else 0
  let academic : Int := if is_academic_domain domain then 1 else 0
  let aff : Int := name_affinity name localPart
  (-sameDomain, -academic, -aff, Int.ofNat (min localPart.length 20))

/-- The ranking key of a whole candidate string (split at the first `@`). -/
def keyOfEmail (name site_regdom e : String) : Int × Int × Int × Int :=
  match splitFirst '@' e with
  | some (loc, domain) => emailKey name site_regdom loc domain
  | none => (0, 0, 0, 0)

/-- Python tuple comparison `<` on the 4-component ranking key (lexicographic). -/
def tupLt (a b : Int × Int × Int × Int) : Prop :=
  a.1 < b.1 ∨ (a.1 = b.1 ∧ (a.2.1 < b.2.1 ∨ (a.2.1 = b.2.1 ∧
    (a.2.2.1 < b.2.2.1 ∨ (a.2.2.1 = b.2.2.1 ∧ a.2.2.2 < b.2.2.2)))))

instance tupLtDecidable (a b : Int × Int × Int × Int) : Decidable (tupLt a b) := by
  unfold tupLt
  exact inferInstance

/-- The loop of `pick_best_email` (src/app.py line 471): scan the candidates in
order, skip candidates without `@` or rejected by `email_allowed`, keep the
candidate with the strictly smallest key seen so far (first wins ties). -/
def pickAux (name site_regdom : String) : List String → Option (String × (Int × Int × Int × Int)) → String
  | [], none => ""
  | [], some (b, _) => b
  | e :: rest, acc =>
    match splitFirst '@' e with
    | none => pickAux name site_regdom rest acc
    | some (loc, domain) =>
      if email_allowed e site_regdom then
        let k := emailKey name site_regdom loc domain
        match acc with
        | none => pickAux name site_regdom rest (some (e, k))
        | some (b, bk) =>
          if tupLt k bk then pickAux name site_regdom rest (some (e, k))
          else pickAux name site_regdom rest (some (b, bk))
      else pickAux name site_regdom rest acc

/-- `pick_best_email` (src/app.py line 471). -/
def pick_best_email (name : String) (emails : List String) (site_regdom : String) : String :=
  pickAux name site_regdom emails none

/-- Reference selector: first element of `b :: l` achieving the minimal key
(used to state and prove what the `pick_best_email` loop computes). -/
def selBest (name site_regdom : String) (b : String) : List String → String
  | [] => b
  | e :: rest =>
    if tupLt (keyOfEmail name site_regdom e) (keyOfEmail name site_regdom b) then
      selBest name site_regdom e rest
    else selBest name site_regdom b rest

/-! ## Pagination follower (src/app.py lines 66, 545-554)

HTML parsing is external (BeautifulSoup); an `Anchor` records, for each `<a>`
element in document order, whether it carries `rel=next`, its `href` attribute
(`""` for a missing or empty attribute — both are falsy in the source), and its
`get_text(" ", strip=True)` string. -/

structure Anchor where
  relNext : Bool
  href : String
  gettext : String
deriving DecidableEq, Repr

/-- `NEXT_TEXTS` (src/app.py line 66). -/
def NEXT_TEXTS : List String :=
  ["下一页", "下页", "下一頁", "Next", "next", "›", "»", ">", "后一页", "下一个",
   "More", "Older"]

/-- The `re.fullmatch(r"(下一页|下页|下一頁|Next|››|>>|More)", txt)` alternation:
fullmatch of a literal alternation is equality with one of the literals. -/
def NEXT_FULLMATCH : List String :=
  ["下一页", "下页", "下一頁", "Next", "››", ">>", "More"]

/-- Does an anchor's normalized text match the next-page vocabulary? -/
def nextTextMatches (txt : String) : Bool :=
  NEXT_TEXTS.contains txt || NEXT_FULLMATCH.contains txt

/-- The anchor-text scan of `find_next_page` (src/app.py lines 549-553): the
first anchor whose normalized text matches the vocabulary and whose `href` is
truthy yields the resolved URL; a matching anchor with a falsy `href` is
skipped and the scan continues. -/
def nextByText (urljoin : String → String → String) (base : String) :
    List Anchor → Option String
  | [] => none
  | a :: rest =>
    if nextTextMatches (text_of a.gettext) then
      if a.href ≠ "" then some (urljoin base a.href)
      else nextByText urljoin base rest
    else nextByText urljoin base rest

/-- `find_next_page` (src/app.py line 545): prefer the first `rel=next` anchor
with a truthy `href`; otherwise scan anchor texts.  Note that the function
itself performs no cycle check — it returns the resolved URL even when that
URL equals the current page. -/
def find_next_page (anchors : List Anchor) (urljoin : String → String → String)
    (base : String) : Option String :=
  match anchors.find? (fun a => a.relNext) with
  | some a =>
    if a.href ≠ "" then some (urljoin base a.href)
    else nextByText urljoin base anchors
  | none => nextByText urljoin base anchors

/-! ## Profile parsing and orchestration (src/app.py lines 636-782)

The external collaborators are gathered in `Env`: the HTTP fetcher (returns
`none` on failure, and an empty document is falsy in the source), the robots
check, and the BeautifulSoup/tldextract-dependent extractors, read at exactly
the call boundaries the source uses.  Everything composed on top of them is
embedded from the source. -/

structure Env where
  /-- `client.fetch` (network transport, src/app.py line 208). -/
  fetch : String → Option String
  /-- `client.allowed_by_robots` (src/app.py line 192). -/
  robots : String → Bool
  /-- `soup.find_all("a")` of a document, in document order, with `rel=next`
  flag, `href` and `get_text(" ", strip=True)` (BeautifulSoup). -/
  anchors : String → List Anchor
  /-- `discover_profiles` (src/app.py line 515): DOM-selector driven listing
  discovery, dependent on the parsed soup tree throughout. -/
  discover : String → String → List (String × String)
  /-- `extract_name(soup)` (src/app.py line 573, DOM-selector driven). -/
  extractName : String → String
  /-- `extract_school(soup)` (src/app.py line 588, DOM-selector driven). -/
  extractSchool : String → String
  /-- `extract_research_area(soup)` (src/app.py line 607, DOM-selector driven). -/
  extractResearch : String → String
  /-- `get_main_text(soup)` (src/app.py line 626, DOM-selector driven). -/
  mainText : String → String
  /-- `extract_phones` (src/app.py line 489); no claim depends on the phone
  field, which is carried opaquely into the record. -/
  extractPhones : String → List String
  /-- `urllib.parse.urljoin`. -/
  urljoin : String → String → String
  /-- `registered_domain` (src/app.py line 356, via tldextract). -/
  regdom : String → String
  /-- `infer_university_from_url` (src/app.py line 346, via tldextract). -/
  inferUniversity : String → String
  /-- `TranslatorWrapper.translate` (external translation backends). -/
  translate : String → String

/-- The result tuple of `parse_profile`. -/
structure Parsed where
  name : String
  school : String
  research : String
  email : String
  phone : String
deriving DecidableEq, Repr

/-- The all-empty rejection tuple `("", "", "", "", "")`. -/
def Parsed.empty : Parsed := ⟨"", "", "", "", ""⟩

/-- The gated name of a profile page: `strip_trailing_punct(extract_name(soup))`
(src/app.py line 638). -/
def profileName (env : Env) (profile_html : String) : String :=
  strip_trailing_punct (env.extractName profile_html)

/-- The email-extraction corpus of `parse_profile` (src/app.py lines 649-653):
every `mailto:` anchor's href and link text, then the main content text, the
nonempty pieces joined with newlines. -/
def profileCorpus (env : Env) (profile_html : String) : String :=
  let mailtoTexts := ((env.anchors profile_html).filter
    (fun a => isPre "mailto".data a.href.data)).foldr
    (fun a acc => a.href :: text_of a.gettext :: acc) []
  let texts := mailtoTexts ++ [env.mainText profile_html]
  String.intercalate "\n" (texts.filter (fun t => t ≠ ""))

/-- The best email of a profile page (src/app.py lines 655-656). -/
def profileEmail (env : Env) (profile_html : String) (site_regdom : String) : String :=
  pick_best_email (profileName env profile_html)
    (extract_emails (profileCorpus env profile_html)) site_regdom

/-- `parse_profile` (src/app.py line 636): extract and gate the name, collect
the mailto/main-text corpus, extract and rank emails, reject unless a staff
email survives, then attach the first phone.  (The `page_has_teaching_role`
call at lines 641-644 guards a `pass` statement and has no effect.)  The
`base_url` argument is unused in the source body and omitted here; the source
computes school/research before the email, but all parts are pure, so the
evaluation order is immaterial. -/
def parse_profile (env : Env) (profile_html : String) (site_regdom : String) : Parsed :=
  if ¬ looks_like_human_name (profileName env profile_html) then Parsed.empty
  else if profileEmail env profile_html site_regdom = "" then Parsed.empty
  else
    ⟨profileName env profile_html,
     strip_trailing_punct (env.extractSchool profile_html),
     strip_trailing_punct (env.extractResearch profile_html),
     profileEmail env profile_html site_regdom,
     (env.extractPhones (profileCorpus env profile_html)).headD ""⟩

/-- `MAX_PAGINATION_PAGES` (src/app.py line 56). -/
def MAX_PAGINATION_PAGES : Nat := 20

/-- A `FacultyRecord` as accumulated by `process_site` (src/app.py line 718). -/
structure FacultyRec where
  name : String
  school : String
  research_area : String
  email : String
  phone : String
  profile_url : String
deriving DecidableEq, Repr

/-- `len(results) >= max_profiles` when a cap is set. -/
def maxHit (maxp : Option Nat) (res : List α) : Bool :=
  match maxp with
  | some m => decide (m ≤ res.length)
  | none => false

/-- State after the per-page profile loop: accumulated records, the visited-URL
set, the profile URLs passed to `client.fetch` so far (instrumentation), and
whether the loop ended with the early `return results` at the profile cap. -/
structure PStep where
  res : List FacultyRec
  vis : List String
  pf : List String
  early : Bool
deriving Repr

/-- The inner `for p in discovered` loop of `process_site` (src/app.py
lines 692-728): cap check, visited check (the URL is marked visited before the
robots check and the fetch), robots check, fetch, parse, email gate, append,
cap check again. -/
def profilesLoop (env : Env) (site_regdom : String) (maxp : Option Nat)
    (page_url : String) :
    List (String × String) → List FacultyRec → List String → List String → PStep
  | [], res, vis, pf => ⟨res, vis, pf, false⟩
  | p :: rest, res, vis, pf =>
    if maxHit maxp res then ⟨res, vis, pf, true⟩
    else
      let prof_url := if p.2 = "" then page_url else p.2
      if prof_url ∈ vis then profilesLoop env site_regdom maxp page_url rest res vis pf
      else
        let vis2 := prof_url :: vis
        if ¬ env.robots prof_url then
          profilesLoop env site_regdom maxp page_url rest res vis2 pf
        else
          let pf2 := pf ++ [prof_url]
          match env.fetch prof_url with
          | none => profilesLoop env site_regdom maxp page_url rest res vis2 pf2
          | some ph =>
            if ph = "" then profilesLoop env site_regdom maxp page_url rest res vis2 pf2
            else
              let parsed := parse_profile env ph site_regdom
              if parsed.email = "" then
                profilesLoop env site_regdom maxp page_url rest res vis2 pf2
              else
                let r0 : FacultyRec :=
                  ⟨(if parsed.name = "" then p.1 else parsed.name), parsed.school,
                   parsed.research, parsed.email, parsed.phone, prof_url⟩
                let res2 := res ++ [r0]
                if maxHit maxp res2 then ⟨res2, vis2, pf2, true⟩
                else profilesLoop env site_regdom maxp page_url rest res2 vis2 pf2

/-- Result of a site crawl: the records, the listing URLs for which
`client.fetch` was called (in order), and the profile URLs for which
`client.fetch` was called (in order).  The two traces are instrumentation of
the fetch calls the source makes; the source returns only the records. -/
structure SiteOut where
  results : List FacultyRec
  listingTrace : List String
  profileFetches : List String
deriving Repr

/-- The `while next_url and pages < MAX_PAGINATION_PAGES` loop of `process_site`
(src/app.py lines 677-737).  The fuel argument is `MAX_PAGINATION_PAGES - pages`:
the counter increments exactly when pagination continues, so the loop guard is
fuel exhaustion.  The loop breaks on a robots block, a failed or empty listing
fetch, the early profile-cap return, no next page, an empty ("falsy") next URL,
or a next URL equal to the current page. -/
def siteLoop (env : Env) (site_regdom : String) (maxp : Option Nat) :
    Nat → String → List String → List FacultyRec → SiteOut
  | 0, _, _, res => ⟨res, [], []⟩
  | fuel + 1, url, vis, res =>
    if url = "" then ⟨res, [], []⟩
    else if ¬ env.robots url then ⟨res, [], []⟩
    else
      match env.fetch url with
      | none => ⟨res, [url], []⟩
      | some html =>
        if html = "" then ⟨res, [url], []⟩
        else
          let disc := env.discover html url
          let st := profilesLoop env site_regdom maxp url disc res vis []
          if st.early then ⟨st.res, [url], st.pf⟩
          else
            match find_next_page (env.anchors html) env.urljoin url with
            | none => ⟨st.res, [url], st.pf⟩
            | some nxt =>
              if nxt = "" ∨ nxt = url then ⟨st.res, [url], st.pf⟩
              else
                let out := siteLoop env site_regdom maxp fuel nxt st.vis st.res
                ⟨out.results, url :: out.listingTrace, st.pf ++ out.profileFetches⟩

/-- `process_site` (src/app.py line 667) with its fetch traces. -/
def process_site_run (env : Env) (site_url : String) (maxp : Option Nat) : SiteOut :=
  siteLoop env (env.regdom site_url) maxp MAX_PAGINATION_PAGES site_url [] []

/-- `process_site` (src/app.py line 667): the accumulated records. -/
def process_site (env : Env) (site_url : String) (maxp : Option Nat) : List FacultyRec :=
  (process_site_run env site_url maxp).results

/-! ## Multi-site orchestration and deduplication (src/app.py lines 741-782) -/

/-- A row of the final result list (src/app.py line 759). -/
structure Row where
  university : String
  school : String
  name : String
  email : String
  phone : String
  research_area : String
  profile_url : String
deriving DecidableEq, Repr

/-- `needs_trans` (src/app.py line 755): contains a character in U+0100..U+FFFF
and no run of four or more ASCII letters. -/
def needs_trans (s : String) : Bool :=
  s.data.any (fun c => 0x100 ≤ c.toNat && c.toNat ≤ 0xFFFF) &&
    !((runsOf isLatinLetter s.data).any (fun r => decide (4 ≤ r.length)))

/-- The `for r in site_rows` loop of `scrape_sites` (src/app.py lines 752-770):
optional translation of CJK-only name/research fields, append the labelled row,
break when the global cap is reached. -/
def siteRowsLoop (env : Env) (uni : String) (maxp : Option Nat) (translate_en : Bool) :
    List FacultyRec → List Row → List Row
  | [], rows => rows
  | r :: rest, rows =>
    let nm := if translate_en && needs_trans r.name then env.translate r.name else r.name
    let ra := if translate_en && needs_trans r.research_area then env.translate r.research_area
              else r.research_area
    let rows2 := rows ++ [⟨uni, r.school, nm, r.email, r.phone, ra, r.profile_url⟩]
    if maxHit maxp rows2 then rows2
    else siteRowsLoop env uni maxp translate_en rest rows2

/-- `site.lower().startswith(("http://", "https://"))`. -/
def startsHttp (s : String) : Bool :=
  isPre "http://".data (toLowerStr s).data || isPre "https://".data (toLowerStr s).data

/-- The `for site in sites` loop of `scrape_sites` (src/app.py lines 747-772):
strip, skip non-HTTP entries, crawl the site, label, accumulate rows, break at
the global cap. -/
def sitesLoop (env : Env) (uni_label : String) (maxp : Option Nat) (translate_en : Bool) :
    List String → List Row → List Row
  | [], rows => rows
  | site :: rest, rows =>
    let s := pyStripS site
    if s = "" ∨ ¬ startsHttp s then sitesLoop env uni_label maxp translate_en rest rows
    else
      let recs := process_site env s maxp
      let uni := if uni_label ≠ "" then uni_label else env.inferUniversity s
      let rows2 := siteRowsLoop env uni maxp translate_en recs rows
      if maxHit maxp rows2 then rows2
      else sitesLoop env uni_label maxp translate_en rest rows2

/-- The pre-deduplication result list of `scrape_sites`. -/
def scrapeRows (env : Env) (sites : List String) (uni_label : String)
    (maxp : Option Nat) (translate_en : Bool) : List Row :=
  sitesLoop env uni_label maxp translate_en sites []

/-- The deduplication key `(p["name"].lower(), p["profile_url"])` (src/app.py line 778). -/
def rkey (r : Row) : String × String := (toLowerStr r.name, r.profile_url)

/-- The dedup loop of `scrape_sites` (src/app.py lines 776-780): keep the first
occurrence of each key, preserve order. -/
def dedupAux : List (String × String) → List Row → List Row
  | _, [] => []
  | seen, p :: rest =>
    if rkey p ∈ seen then dedupAux seen rest
    else p :: dedupAux (rkey p :: seen) rest

def dedupRows (l : List Row) : List Row := dedupAux [] l

/-- `scrape_sites` (src/app.py line 741): crawl every site, then deduplicate. -/
def scrape_sites (env : Env) (sites : List String) (uni_label : String)
    (maxp : Option Nat) (translate_en : Bool) : List Row :=
  dedupRows (scrapeRows env sites uni_label maxp translate_en)

/-! ## Concrete sample environments (used to instantiate the theorems) -/

/-- A one-site, one-profile environment: the listing document `"L"` lists one
profile link; the profile document `"P"` carries a human name and a same-domain
email in its main text. -/
def testEnv : Env :=
  ⟨fun u => if u = "http://u.example.edu/people" then some "L"
            else if u = "http://u.example.edu/p/js" then some "P" else none,
   fun _ => true,
   fun _ => [],
   fun h _ => if h = "L" then [("John Smith", "http://u.example.edu/p/js")] else [],
   fun h => if h = "P" then "John Smith" else "",
   fun _ => "",
   fun _ => "",
   fun h => if h = "P" then "Email: j.smith@u.example.edu" else "",
   fun _ => [],
   fun _ h => h,
   fun _ => "example.edu",
   fun _ => "Example University",
   fun t => t⟩

/-- The row produced by `testEnv`. -/
def testRow : Row :=
  ⟨"Example University", "", "John Smith", "j.smith@u.example.edu", "",
   "", "http://u.example.edu/p/js"⟩

/-- An environment whose single listing page advertises itself as its own next
page (a pagination self-cycle). -/
def selfLoopEnv : Env :=
  ⟨fun u => if u = "http://x/list" then some "L" else none,
   fun _ => true,
   fun h => if h = "L" then [Anchor.mk true "http://x/list" "Next"] else [],
   fun _ _ => [],
   fun _ => "",
   fun _ => "",
   fun _ => "",
   fun _ => "",
   fun _ => [],
   fun _ h => h,
   fun _ => "x.com",
   fun _ => "X University",
   fun t => t⟩


/-! ## Supporting lemmas -/

theorem toNat_ofNat_valid (n : Nat) (h : n.isValidChar) : (Char.ofNat n).toNat = n := by
  rw [Char.ofNat, dif_pos h]
  simp [Char.ofNatAux, Char.toNat, UInt32.toNat]

theorem lc_idem (c : Char) : lc (lc c) = lc c := by
  show Char.toLower (Char.toLower c) = Char.toLower c
  simp only [Char.toLower]
  by_cases h : c.toNat ≥ 65 ∧ c.toNat ≤ 90
  · rw [if_pos h]
    have h32 : (Char.ofNat (c.toNat + 32)).toNat = c.toNat + 32 :=
      toNat_ofNat_valid _ (Or.inl (by omega))
    rw [if_neg (by omega)]
  · rw [if_neg h, if_neg h]

theorem lowerL_idem (l : List Char) : lowerL (lowerL l) = lowerL l := by
  simp only [lowerL, List.map_map]
  exact List.map_congr_left (fun c _ => lc_idem c)

theorem toLowerStr_idem (s : String) : toLowerStr (toLowerStr s) = toLowerStr s := by
  simp [toLowerStr, lowerL_idem]

theorem tupLt_irrefl (a : Int × Int × Int × Int) : ¬ tupLt a a := by
  obtain ⟨a1, a2, a3, a4⟩ := a
  simp only [tupLt]
  omega

theorem tupLt_trans {a b c : Int × Int × Int × Int}
    (h1 : tupLt a b) (h2 : tupLt b c) : tupLt a c := by
  obtain ⟨a1, a2, a3, a4⟩ := a
  obtain ⟨b1, b2, b3, b4⟩ := b
  obtain ⟨c1, c2, c3, c4⟩ := c
  simp only [tupLt] at *
  omega

theorem tupLt_trichotomy (a b : Int × Int × Int × Int) :
    tupLt a b ∨ a = b ∨ tupLt b a := by
  obtain ⟨a1, a2, a3, a4⟩ := a
  obtain ⟨b1, b2, b3, b4⟩ := b
  simp only [tupLt, Prod.mk.injEq]
  omega

theorem email_allowed_of_none {e d : String} (h : splitFirst '@' e = none) :
    email_allowed e d = false := by
  unfold email_allowed
  rw [h]

theorem keyOfEmail_eq {n d e l dm : String} (h : splitFirst '@' e = some (l, dm)) :
    keyOfEmail n d e = emailKey n d l dm := by
  unfold keyOfEmail
  rw [h]

theorem pickAux_some (n d : String) : ∀ (es : List String) (b : String),
    pickAux n d es (some (b, keyOfEmail n d b)) =
      selBest n d b (es.filter (fun e => email_allowed e d)) := by
  intro es
  induction es with
  | nil => intro b; rfl
  | cons e rest ih =>
    intro b
    cases hs : splitFirst '@' e with
    | none =>
      have ha := email_allowed_of_none (d := d) hs
      simp only [pickAux, hs, List.filter_cons, ha]
      exact ih b
    | some p =>
      obtain ⟨l, dm⟩ := p
      by_cases ha : email_allowed e d = true
      · simp only [pickAux, hs, ha, if_true, List.filter_cons]
        rw [← keyOfEmail_eq (n := n) (d := d) hs]
        simp only [selBest]
        split
        · exact ih e
        · exact ih b
      · simp only [pickAux, hs, List.filter_cons, Bool.not_eq_true] at *
        simp only [ha, if_false, Bool.false_eq_true]
        exact ih b

theorem pickAux_none (n d : String) : ∀ es : List String,
    pickAux n d es none =
      (match es.filter (fun e => email_allowed e d) with
       | [] => ""
       | b :: t => selBest n d b t) := by
  intro es
  induction es with
  | nil => rfl
  | cons e rest ih =>
    cases hs : splitFirst '@' e with
    | none =>
      have ha := email_allowed_of_none (d := d) hs
      simp only [pickAux, hs, List.filter_cons, ha]
      exact ih
    | some p =>
      obtain ⟨l, dm⟩ := p
      by_cases ha : email_allowed e d = true
      · simp only [pickAux, hs, ha, if_true, List.filter_cons]
        rw [← keyOfEmail_eq (n := n) (d := d) hs]
        exact pickAux_some n d rest e
      · simp only [pickAux, hs, List.filter_cons, Bool.not_eq_true] at *
        simp only [ha, if_false, Bool.false_eq_true]
        exact ih

theorem selBest_mem (n d : String) (l : List String) : ∀ b, selBest n d b l ∈ b :: l := by
  induction l with
  | nil => intro b; simp [selBest]
  | cons e rest ih =>
    intro b
    simp only [selBest]
    split
    · rcases List.mem_cons.mp (ih e) with h | h
      · simp [h]
      · simp [List.mem_cons, Or.inr (Or.inr h)]
    · rcases List.mem_cons.mp (ih b) with h | h
      · simp [h]
      · simp [List.mem_cons, Or.inr (Or.inr h)]

theorem selBest_min (n d : String) (l : List String) : ∀ b, ∀ x ∈ b :: l,
    ¬ tupLt (keyOfEmail n d x) (keyOfEmail n d (selBest n d b l)) := by
  induction l with
  | nil =>
    intro b x hx
    simp only [List.mem_cons, List.not_mem_nil, or_false] at hx
    subst hx
    simp only [selBest]
    exact tupLt_irrefl _
  | cons e rest ih =>
    intro b x hx
    simp only [selBest]
    split
    · rename_i h
      rcases List.mem_cons.mp hx with rfl | hx2
      · intro hlt
        exact ih e e (List.mem_cons_self e rest) (tupLt_trans h hlt)
      · exact ih e x hx2
    · rename_i h
      rcases List.mem_cons.mp hx with rfl | hx2
      · exact ih x x (List.mem_cons_self x rest)
      · rcases List.mem_cons.mp hx2 with rfl | hx3
        · intro hlt
          rcases tupLt_trichotomy (keyOfEmail n d x) (keyOfEmail n d b) with h1 | h1 | h1
          · exact h h1
          · exact ih b b (List.mem_cons_self b rest) (h1 ▸ hlt)
          · exact ih b b (List.mem_cons_self b rest) (tupLt_trans h1 hlt)
        · exact ih b x (List.mem_cons.mpr (Or.inr hx3))

theorem selBest_first (n d : String) (l : List String) : ∀ b,
    (b :: l).find? (fun c => decide (keyOfEmail n d c = keyOfEmail n d (selBest n d b l))) =
      some (selBest n d b l) := by
  induction l with
  | nil =>
    intro b
    simp [selBest, List.find?]
  | cons e rest ih =>
    intro b
    simp only [selBest]
    split
    · rename_i h
      have hmin := selBest_min n d rest e e (List.mem_cons_self e rest)
      have hne : ¬ (keyOfEmail n d b = keyOfEmail n d (selBest n d e rest)) := by
        intro heq
        exact hmin (heq ▸ h)
      rw [List.find?_cons_of_neg _ (by simpa using hne)]
      exact ih e
    · rename_i h
      by_cases hb : keyOfEmail n d b = keyOfEmail n d (selBest n d b rest)
      · have hbr : selBest n d b rest = b := by
          have hIH := ih b
          rw [List.find?_cons_of_pos _ (by simpa using hb)] at hIH
          exact (Option.some.inj hIH).symm
        rw [List.find?_cons_of_pos _ (by simpa using hb), hbr]
      · have hIH := ih b
        rw [List.find?_cons_of_neg _ (by simpa using hb)] at hIH
        rw [List.find?_cons_of_neg _ (by simpa using hb)]
        have hminb := selBest_min n d rest b b (List.mem_cons_self b rest)
        have hne : ¬ (keyOfEmail n d e = keyOfEmail n d (selBest n d b rest)) := by
          intro heq
          rcases tupLt_trichotomy (keyOfEmail n d b) (keyOfEmail n d e) with h1 | h1 | h1
          · exact hminb (heq ▸ h1)
          · exact hb (h1.trans heq)
          · exact h h1
        rw [List.find?_cons_of_neg _ (by simpa using hne)]
        exact hIH

theorem pick_best_mem_filter (n d : String) (emails : List String) :
    pick_best_email n emails d = "" ∨
      pick_best_email n emails d ∈ emails.filter (fun e => email_allowed e d) := by
  unfold pick_best_email
  rw [pickAux_none]
  cases hf : emails.filter (fun e => email_allowed e d) with
  | nil => left; rfl
  | cons b t => right; exact selBest_mem n d t b

theorem email_allowed_of_pick_ne {n d : String} {emails : List String}
    (h : pick_best_email n emails d ≠ "") :
    email_allowed (pick_best_email n emails d) d = true := by
  rcases pick_best_mem_filter n d emails with h0 | h0
  · exact absurd h0 h
  · exact (List.mem_filter.mp h0).2

theorem pick_eq_empty_of_all_rejected (n d : String) (emails : List String)
    (h : ∀ e ∈ emails, email_allowed e d = false) :
    pick_best_email n emails d = "" := by
  unfold pick_best_email
  rw [pickAux_none]
  have hnil : emails.filter (fun e => email_allowed e d) = [] := by
    rw [List.filter_eq_nil_iff]
    intro a ha
    simp [h a ha]
  rw [hnil]

theorem email_allowed_false_of_gmail {e d : String}
    (h : toLowerStr (emailDomain e) = "gmail.com") : email_allowed e d = false := by
  unfold emailDomain at h
  cases hs : splitFirst '@' e with
  | none =>
    rw [hs] at h
    exact absurd h (by decide)
  | some p =>
    obtain ⟨l, dm⟩ := p
    rw [hs] at h
    change toLowerStr dm = "gmail.com" at h
    unfold email_allowed
    rw [hs]
    by_cases hg : email_is_generic (toLowerStr l) = true
    · simp [hg]
    · simp only [Bool.not_eq_true] at hg
      have hm : ("gmail.com" : String) ∈ PERSONAL_FREE_DOMAINS := by decide
      simp [hg, h, hm]

theorem parse_profile_email (env : Env) (html rd : String) :
    (parse_profile env html rd).email = "" ∨
      email_allowed (parse_profile env html rd).email rd = true := by
  unfold parse_profile
  by_cases h1 : looks_like_human_name (profileName env html) = true
  · by_cases h2 : profileEmail env html rd = ""
    · simp only [h1, not_true_eq_false, if_false, h2, if_pos h2]
      left
      rfl
    · simp only [h1, not_true_eq_false, if_false, h2, if_neg h2]
      right
      exact email_allowed_of_pick_ne h2
  · simp [h1]
    left
    rfl

theorem profilesLoop_res (env : Env) (rd : String) (maxp : Option Nat) (purl : String) :
    ∀ (ps : List (String × String)) (res : List FacultyRec) (vis pf : List String),
      ∀ r ∈ (profilesLoop env rd maxp purl ps res vis pf).res,
        r ∈ res ∨ (r.email ≠ "" ∧ email_allowed r.email rd = true) := by
  intro ps
  induction ps with
  | nil => intro res vis pf r hr; exact Or.inl hr
  | cons p rest ih =>
    intro res vis pf r hr
    simp only [profilesLoop] at hr
    generalize hpu : (if p.2 = "" then purl else p.2) = pu at hr
    split at hr
    · exact Or.inl hr
    · split at hr
      · exact ih _ _ _ r hr
      · split at hr
        · exact ih _ _ _ r hr
        · split at hr
          · exact ih _ _ _ r hr
          · rename_i ph hfetch
            split at hr
            · exact ih _ _ _ r hr
            · generalize hpp : parse_profile env ph rd = pp at hr
              split at hr
              · exact ih _ _ _ r hr
              · generalize hnm : (if pp.name = "" then p.1 else pp.name) = nm at hr
                rename_i hemail
                have hall : email_allowed pp.email rd = true := by
                  rcases parse_profile_email env ph rd with h0 | h0
                  · rw [hpp] at h0; exact absurd h0 hemail
                  · rw [hpp] at h0; exact h0
                split at hr
                · rcases List.mem_append.mp hr with h | h
                  · exact Or.inl h
                  · simp only [List.mem_singleton] at h
                    subst h
                    exact Or.inr ⟨hemail, hall⟩
                · rcases ih _ _ _ r hr with h | h
                  · rcases List.mem_append.mp h with h2 | h2
                    · exact Or.inl h2
                    · simp only [List.mem_singleton] at h2
                      subst h2
                      exact Or.inr ⟨hemail, hall⟩
                  · exact Or.inr h

theorem profilesLoop_vis (env : Env) (rd : String) (maxp : Option Nat) (purl : String) :
    ∀ (ps : List (String × String)) (res : List FacultyRec) (vis pf : List String),
      ∀ u ∈ vis, u ∈ (profilesLoop env rd maxp purl ps res vis pf).vis := by
  intro ps
  induction ps with
  | nil => intro res vis pf u hu; exact hu
  | cons p rest ih =>
    intro res vis pf u hu
    simp only [profilesLoop]
    generalize hpu : (if p.2 = "" then purl else p.2) = pu
    split
    · exact hu
    · split
      · exact ih _ _ _ u hu
      · have hu2 : u ∈ pu :: vis := List.mem_cons.mpr (Or.inr hu)
        split
        · exact ih _ _ _ u hu2
        · split
          · exact ih _ _ _ u hu2
          · rename_i ph hfetch
            split
            · exact ih _ _ _ u hu2
            · generalize hpp : parse_profile env ph rd = pp
              split
              · exact ih _ _ _ u hu2
              · generalize hnm : (if pp.name = "" then p.1 else pp.name) = nm
                split
                · exact hu2
                · exact ih _ _ _ u hu2

theorem profilesLoop_pf (env : Env) (rd : String) (maxp : Option Nat) (purl : String) :
    ∀ (ps : List (String × String)) (res : List FacultyRec) (vis pf : List String),
      pf.Nodup → (∀ u ∈ pf, u ∈ vis) →
      ((profilesLoop env rd maxp purl ps res vis pf).pf.Nodup ∧
       (∀ u ∈ (profilesLoop env rd maxp purl ps res vis pf).pf,
          u ∈ (profilesLoop env rd maxp purl ps res vis pf).vis) ∧
       (∀ u ∈ (profilesLoop env rd maxp purl ps res vis pf).pf, u ∈ pf ∨ u ∉ vis)) := by
  intro ps
  induction ps with
  | nil => intro res vis pf h1 h2; exact ⟨h1, h2, fun u hu => Or.inl hu⟩
  | cons p rest ih =>
    intro res vis pf h1 h2
    simp only [profilesLoop]
    generalize hpu : (if p.2 = "" then purl else p.2) = pu
    split
    · exact ⟨h1, h2, fun u hu => Or.inl hu⟩
    · split
      · exact ih _ _ _ h1 h2
      · rename_i hnvis
        have hpu_nvis : pu ∉ vis := by simpa using hnvis
        have hpu_npf : pu ∉ pf := fun hc => hpu_nvis (h2 pu hc)
        have h1' : (pf ++ [pu]).Nodup := by
          rw [List.nodup_append]
          refine ⟨h1, List.nodup_singleton pu, fun a ha hb => ?_⟩
          simp only [List.mem_singleton] at hb
          subst hb
          exact hpu_npf ha
        have h2' : ∀ u ∈ pf ++ [pu], u ∈ pu :: vis := by
          intro u hu
          rcases List.mem_append.mp hu with h | h
          · exact List.mem_cons.mpr (Or.inr (h2 u h))
          · simp only [List.mem_singleton] at h
            exact List.mem_cons.mpr (Or.inl h)
        have hdown : ∀ u, (u ∈ pf ++ [pu] ∨ u ∉ pu :: vis) → (u ∈ pf ∨ u ∉ vis) := by
          intro u hu
          rcases hu with h | h
          · rcases List.mem_append.mp h with h3 | h3
            · exact Or.inl h3
            · simp only [List.mem_singleton] at h3
              subst h3
              exact Or.inr hpu_nvis
          · exact Or.inr (fun hc => h (List.mem_cons.mpr (Or.inr hc)))
        have h2b : ∀ u ∈ pf, u ∈ pu :: vis :=
          fun u hu => List.mem_cons.mpr (Or.inr (h2 u hu))
        split
        · rcases ih res (pu :: vis) pf h1 h2b with ⟨a, b, c⟩
          refine ⟨a, b, fun u hu => ?_⟩
          rcases c u hu with h | h
          · exact Or.inl h
          · exact Or.inr (fun hc => h (List.mem_cons.mpr (Or.inr hc)))
        · split
          · rcases ih res (pu :: vis) (pf ++ [pu]) h1' h2' with ⟨a, b, c⟩
            exact ⟨a, b, fun u hu => hdown u (c u hu)⟩
          · rename_i ph hfetch
            split
            · rcases ih res (pu :: vis) (pf ++ [pu]) h1' h2' with ⟨a, b, c⟩
              exact ⟨a, b, fun u hu => hdown u (c u hu)⟩
            · generalize hpp : parse_profile env ph rd = pp
              split
              · rcases ih res (pu :: vis) (pf ++ [pu]) h1' h2' with ⟨a, b, c⟩
                exact ⟨a, b, fun u hu => hdown u (c u hu)⟩
              · generalize hnm : (if pp.name = "" then p.1 else pp.name) = nm
                split
                · exact ⟨h1', h2', fun u hu => hdown u (Or.inl hu)⟩
                · rcases ih _ (pu :: vis) (pf ++ [pu]) h1' h2' with ⟨a, b, c⟩
                  exact ⟨a, b, fun u hu => hdown u (c u hu)⟩

theorem siteLoop_res (env : Env) (rd : String) (maxp : Option Nat) :
    ∀ (fuel : Nat) (url : String) (vis : List String) (res : List FacultyRec),
      ∀ r ∈ (siteLoop env rd maxp fuel url vis res).results,
        r ∈ res ∨ (r.email ≠ "" ∧ email_allowed r.email rd = true) := by
  intro fuel
  induction fuel with
  | zero => intro url vis res r hr; exact Or.inl hr
  | succ fuel ih =>
    intro url vis res r hr
    simp only [siteLoop] at hr
    split at hr
    · exact Or.inl hr
    · split at hr
      · exact Or.inl hr
      · split at hr
        · exact Or.inl hr
        · rename_i html hfetch
          split at hr
          · exact Or.inl hr
          · split at hr
            · exact profilesLoop_res env rd maxp url _ res vis [] r hr
            · split at hr
              · exact profilesLoop_res env rd maxp url _ res vis [] r hr
              · split at hr
                · exact profilesLoop_res env rd maxp url _ res vis [] r hr
                · rcases ih _ _ _ r hr with h | h
                  · exact profilesLoop_res env rd maxp url _ res vis [] r h
                  · exact Or.inr h

theorem siteLoop_trace_len (env : Env) (rd : String) (maxp : Option Nat) :
    ∀ (fuel : Nat) (url : String) (vis : List String) (res : List FacultyRec),
      (siteLoop env rd maxp fuel url vis res).listingTrace.length ≤ fuel := by
  intro fuel
  induction fuel with
  | zero => intro url vis res; simp [siteLoop]
  | succ fuel ih =>
    intro url vis res
    simp only [siteLoop]
    split
    · simp
    · split
      · simp
      · split
        · simp
        · rename_i html hfetch
          split
          · simp
          · split
            · simp
            · split
              · simp
              · split
                · simp
                · simp only [List.length_cons]
                  exact Nat.succ_le_succ (ih _ _ _)

theorem siteLoop_pf (env : Env) (rd : String) (maxp : Option Nat) :
    ∀ (fuel : Nat) (url : String) (vis : List String) (res : List FacultyRec),
      (siteLoop env rd maxp fuel url vis res).profileFetches.Nodup ∧
      (∀ u ∈ (siteLoop env rd maxp fuel url vis res).profileFetches, u ∉ vis) := by
  intro fuel
  induction fuel with
  | zero =>
    intro url vis res
    exact ⟨List.nodup_nil, fun u hu => absurd hu (List.not_mem_nil u)⟩
  | succ fuel ih =>
    intro url vis res
    simp only [siteLoop]
    split
    · exact ⟨List.nodup_nil, fun u hu => absurd hu (List.not_mem_nil u)⟩
    · split
      · exact ⟨List.nodup_nil, fun u hu => absurd hu (List.not_mem_nil u)⟩
      · split
        · exact ⟨List.nodup_nil, fun u hu => absurd hu (List.not_mem_nil u)⟩
        · rename_i html hfetch
          split
          · exact ⟨List.nodup_nil, fun u hu => absurd hu (List.not_mem_nil u)⟩
          · have hst := profilesLoop_pf env rd maxp url (env.discover html url) res vis []
              List.nodup_nil (by simp)
            obtain ⟨hstN, hstV, hstNew⟩ := hst
            have hstNot : ∀ u ∈ (profilesLoop env rd maxp url
                (env.discover html url) res vis []).pf, u ∉ vis := by
              intro u hu
              rcases hstNew u hu with h | h
              · simp at h
              · exact h
            split
            · exact ⟨hstN, hstNot⟩
            · split
              · exact ⟨hstN, hstNot⟩
              · split
                · exact ⟨hstN, hstNot⟩
                · obtain ⟨hoN, hoNot⟩ := ih _
                    (profilesLoop env rd maxp url (env.discover html url) res vis []).vis
                    (profilesLoop env rd maxp url (env.discover html url) res vis []).res
                  constructor
                  · rw [List.nodup_append]
                    refine ⟨hstN, hoN, fun a ha hb => ?_⟩
                    exact hoNot a hb (hstV a ha)
                  · intro u hu
                    rcases List.mem_append.mp hu with h | h
                    · exact hstNot u h
                    · exact fun hc => hoNot u h
                        (profilesLoop_vis env rd maxp url (env.discover html url) res vis [] u hc)

theorem siteRowsLoop_mem (env : Env) (uni : String) (maxp : Option Nat) (tr : Bool) :
    ∀ (recs : List FacultyRec) (rows : List Row),
      ∀ row ∈ siteRowsLoop env uni maxp tr recs rows,
        row ∈ rows ∨ ∃ fr ∈ recs, row.email = fr.email := by
  intro recs
  induction recs with
  | nil => intro rows row h; exact Or.inl h
  | cons r rest ih =>
    intro rows row h
    simp only [siteRowsLoop] at h
    generalize hnm : (if tr && needs_trans r.name then env.translate r.name else r.name) = nm at h
    generalize hra : (if tr && needs_trans r.research_area then env.translate r.research_area
      else r.research_area) = ra at h
    have hnew : ∀ x ∈ rows ++
        [(⟨uni, r.school, nm, r.email, r.phone, ra, r.profile_url⟩ : Row)],
        x ∈ rows ∨ ∃ fr ∈ r :: rest, x.email = fr.email := by
      intro x hx
      rcases List.mem_append.mp hx with h2 | h2
      · exact Or.inl h2
      · simp only [List.mem_singleton] at h2
        subst h2
        exact Or.inr ⟨r, List.mem_cons_self r rest, rfl⟩
    split at h
    · exact hnew row h
    · rcases ih _ row h with h2 | h2
      · exact hnew row h2
      · obtain ⟨fr, hfr, he⟩ := h2
        exact Or.inr ⟨fr, List.mem_cons.mpr (Or.inr hfr), he⟩

theorem sitesLoop_mem (env : Env) (label : String) (maxp : Option Nat) (tr : Bool) :
    ∀ (sites : List String) (rows : List Row),
      ∀ row ∈ sitesLoop env label maxp tr sites rows,
        row ∈ rows ∨ ∃ site ∈ sites,
          ∃ fr ∈ process_site env (pyStripS site) maxp, row.email = fr.email := by
  intro sites
  induction sites with
  | nil => intro rows row h; exact Or.inl h
  | cons site rest ih =>
    intro rows row h
    simp only [sitesLoop] at h
    have lift : (row ∈ rows ∨ ∃ s ∈ rest,
        ∃ fr ∈ process_site env (pyStripS s) maxp, row.email = fr.email) →
        row ∈ rows ∨ ∃ s ∈ site :: rest,
          ∃ fr ∈ process_site env (pyStripS s) maxp, row.email = fr.email := by
      rintro (h2 | ⟨s, hs, fr, hfr, he⟩)
      · exact Or.inl h2
      · exact Or.inr ⟨s, List.mem_cons.mpr (Or.inr hs), fr, hfr, he⟩
    split at h
    · exact lift (ih _ row h)
    · generalize huni : (if label ≠ "" then label
        else env.inferUniversity (pyStripS site)) = uni at h
      have fromRows2 : ∀ x ∈ siteRowsLoop env uni maxp tr
          (process_site env (pyStripS site) maxp) rows,
          x ∈ rows ∨ ∃ s ∈ site :: rest,
            ∃ fr ∈ process_site env (pyStripS s) maxp, x.email = fr.email := by
        intro x hx
        rcases siteRowsLoop_mem env _ maxp tr _ rows x hx with h2 | h2
        · exact Or.inl h2
        · obtain ⟨fr, hfr, he⟩ := h2
          exact Or.inr ⟨site, List.mem_cons_self site rest, fr, hfr, he⟩
      split at h
      · exact fromRows2 row h
      · rcases ih _ row h with h2 | h2
        · exact fromRows2 row h2
        · obtain ⟨s, hs, fr, hfr, he⟩ := h2
          exact Or.inr ⟨s, List.mem_cons.mpr (Or.inr hs), fr, hfr, he⟩

theorem dedupAux_mem : ∀ (seen : List (String × String)) (l : List Row),
    ∀ r ∈ dedupAux seen l, r ∈ l := by
  intro seen l
  induction l generalizing seen with
  | nil => intro r h; exact absurd h (List.not_mem_nil r)
  | cons p rest ih =>
    intro r h
    simp only [dedupAux] at h
    split at h
    · exact List.mem_cons.mpr (Or.inr (ih _ r h))
    · rcases List.mem_cons.mp h with h2 | h2
      · exact List.mem_cons.mpr (Or.inl h2)
      · exact List.mem_cons.mpr (Or.inr (ih _ r h2))

theorem dedupAux_sublist : ∀ (seen : List (String × String)) (l : List Row),
    (dedupAux seen l).Sublist l := by
  intro seen l
  induction l generalizing seen with
  | nil => exact List.Sublist.refl []
  | cons p rest ih =>
    simp only [dedupAux]
    split
    · exact List.Sublist.cons p (ih seen)
    · exact List.Sublist.cons₂ p (ih (rkey p :: seen))

theorem dedupAux_notin_seen : ∀ (seen : List (String × String)) (l : List Row),
    ∀ r ∈ dedupAux seen l, rkey r ∉ seen := by
  intro seen l
  induction l generalizing seen with
  | nil => intro r h; exact absurd h (List.not_mem_nil r)
  | cons p rest ih =>
    intro r h
    simp only [dedupAux] at h
    split at h
    · exact ih seen r h
    · rcases List.mem_cons.mp h with h2 | h2
      · subst h2
        rename_i hk
        exact hk
      · intro hc
        exact ih (rkey p :: seen) r h2 (List.mem_cons.mpr (Or.inr hc))

theorem dedupAux_pairwise : ∀ (seen : List (String × String)) (l : List Row),
    (dedupAux seen l).Pairwise (fun a b => rkey a ≠ rkey b) := by
  intro seen l
  induction l generalizing seen with
  | nil => exact List.Pairwise.nil
  | cons p rest ih =>
    simp only [dedupAux]
    split
    · exact ih seen
    · refine List.Pairwise.cons ?_ (ih (rkey p :: seen))
      intro b hb hc
      exact dedupAux_notin_seen _ _ b hb (List.mem_cons.mpr (Or.inl hc.symm))

theorem dedupAux_find_first : ∀ (seen : List (String × String)) (l : List Row),
    ∀ r ∈ dedupAux seen l, l.find? (fun x => decide (rkey x = rkey r)) = some r := by
  intro seen l
  induction l generalizing seen with
  | nil => intro r h; exact absurd h (List.not_mem_nil r)
  | cons p rest ih =>
    intro r h
    simp only [dedupAux] at h
    split at h
    · rename_i hk
      have hr := ih seen r h
      have hne : ¬ (rkey p = rkey r) := by
        intro heq
        exact dedupAux_notin_seen seen rest r h (heq ▸ hk)
      rw [List.find?_cons_of_neg _ (by simpa using hne)]
      exact hr
    · rcases List.mem_cons.mp h with h2 | h2
      · subst h2
        rw [List.find?_cons_of_pos _ (by simp)]
      · have hr := ih (rkey p :: seen) r h2
        have hnotin := dedupAux_notin_seen (rkey p :: seen) rest r h2
        have hne : ¬ (rkey p = rkey r) := by
          intro heq
          exact hnotin (List.mem_cons.mpr (Or.inl heq.symm))
        rw [List.find?_cons_of_neg _ (by simpa using hne)]
        exact hr

theorem nextByText_none (urljoin : String → String → String) (base : String) :
    ∀ (anchors : List Anchor),
      (∀ a ∈ anchors, nextTextMatches (text_of a.gettext) = false) →
      nextByText urljoin base anchors = none := by
  intro anchors
  induction anchors with
  | nil => intro h; rfl
  | cons a rest ih =>
    intro h
    simp only [nextByText, h a (List.mem_cons_self a rest)]
    exact ih (fun b hb => h b (List.mem_cons.mpr (Or.inr hb)))

theorem email_allowed_some {e d loc dom : String} (h : splitFirst '@' e = some (loc, dom)) :
    email_allowed e d =
      (if email_is_generic (toLowerStr loc) then false
       else if PERSONAL_FREE_DOMAINS.contains (toLowerStr dom) then false
       else if decide (d ≠ "") &&
           (decide (toLowerStr dom = d) || strEndsWith (toLowerStr dom) ("." ++ d)) then true
       else is_academic_domain (toLowerStr dom)) := by
  unfold email_allowed
  rw [h]

theorem pick_best_email_min_general (name : String) (emails : List String) (site_regdom : String)
    (hne : emails.filter (fun e => email_allowed e site_regdom) ≠ []) :
    pick_best_email name emails site_regdom ∈
        emails.filter (fun e => email_allowed e site_regdom) ∧
      (∀ c ∈ emails.filter (fun e => email_allowed e site_regdom),
        ¬ tupLt (keyOfEmail name site_regdom c)
          (keyOfEmail name site_regdom (pick_best_email name emails site_regdom))) ∧
      (emails.filter (fun e => email_allowed e site_regdom)).find?
        (fun c => decide (keyOfEmail name site_regdom c =
          keyOfEmail name site_regdom (pick_best_email name emails site_regdom))) =
        some (pick_best_email name emails site_regdom) := by
  have hpick : pick_best_email name emails site_regdom =
      (match emails.filter (fun e => email_allowed e site_regdom) with
       | [] => ""
       | b :: t => selBest name site_regdom b t) := by
    unfold pick_best_email
    exact pickAux_none name site_regdom emails
  cases hf : emails.filter (fun e => email_allowed e site_regdom) with
  | nil => exact absurd hf hne
  | cons b t =>
    rw [hf] at hpick
    have hpick2 : pick_best_email name emails site_regdom = selBest name site_regdom b t := by
      rw [hpick]
    rw [hpick2]
    exact ⟨selBest_mem name site_regdom t b, selBest_min name site_regdom t b,
      selBest_first name site_regdom t b⟩

/-! ## The claims -/

/-- Claim C1: every record in the final result list returned by the multi-site
orchestrator `scrape_sites` has a non-empty email field that satisfies the
institutional-email policy `email_allowed` against the registrable domain of
the record's source site; a profile for which no email survives
ranking/filtering never produces a record (records are appended only when
`parse_profile` yields a non-empty, policy-passing email). -/
theorem scrape_sites_email_invariant (env : Env) (sites : List String) (uni_label : String)
    (maxp : Option Nat) (translate_en : Bool) :
    ∀ r ∈ scrape_sites env sites uni_label maxp translate_en,
      r.email ≠ "" ∧
        ∃ site ∈ sites, email_allowed r.email (env.regdom (pyStripS site)) = true := by
  intro r hr
  have hrows : r ∈ scrapeRows env sites uni_label maxp translate_en :=
    dedupAux_mem [] _ r hr
  rcases sitesLoop_mem env uni_label maxp translate_en sites [] r hrows with h | h
  · exact absurd h (List.not_mem_nil r)
  · obtain ⟨site, hsite, fr, hfr, he⟩ := h
    rcases siteLoop_res env (env.regdom (pyStripS site)) maxp MAX_PAGINATION_PAGES
      (pyStripS site) [] [] fr hfr with h2 | h2
    · exact absurd h2 (List.not_mem_nil fr)
    · exact ⟨by rw [he]; exact h2.1, site, hsite, by rw [he]; exact h2.2⟩

theorem scrape_sites_email_invariant_witness :
    testRow ∈ scrape_sites testEnv ["http://u.example.edu/people"] "" none false ∧
    (testRow.email ≠ "" ∧ ∃ site ∈ ["http://u.example.edu/people"],
      email_allowed testRow.email (testEnv.regdom (pyStripS site)) = true) :=
  ⟨by decide,
   scrape_sites_email_invariant testEnv ["http://u.example.edu/people"] "" none false
     testRow (by decide)⟩

/-- Claim C2: the final result list of `scrape_sites` contains no two records
with the same `(name.lower(), profile_url)` pair; deduplication keeps the first
occurrence of each key and preserves the relative order of kept records
(`Sublist` of the pre-dedup row list), and — the embedding being a pure
function of the environment, which models a deterministic fetcher — a second
run on identical input yields identical output. -/
theorem scrape_sites_dedup_spec (env : Env) (sites : List String) (uni_label : String)
    (maxp : Option Nat) (translate_en : Bool) :
    (scrape_sites env sites uni_label maxp translate_en).Pairwise
        (fun a b => rkey a ≠ rkey b) ∧
      (scrape_sites env sites uni_label maxp translate_en).Sublist
        (scrapeRows env sites uni_label maxp translate_en) ∧
      (∀ r ∈ scrape_sites env sites uni_label maxp translate_en,
        (scrapeRows env sites uni_label maxp translate_en).find?
          (fun x => decide (rkey x = rkey r)) = some r) ∧
      scrape_sites env sites uni_label maxp translate_en =
        scrape_sites env sites uni_label maxp translate_en :=
  ⟨dedupAux_pairwise [] _, dedupAux_sublist [] _,
   fun r hr => dedupAux_find_first [] _ r hr, rfl⟩

theorem scrape_sites_dedup_spec_witness :
    (scrapeRows testEnv ["http://u.example.edu/people"] "" none false).find?
      (fun x => decide (rkey x = rkey testRow)) = some testRow :=
  (scrape_sites_dedup_spec testEnv ["http://u.example.edu/people"] "" none false).2.2.1
    testRow (by decide)

/-- Claim C3: for every email string containing `@` (split at the first `@`
into local part and domain) and every site registrable domain, `email_allowed`
returns true if and only if the local part is not a known generic mailbox name
and does not start with a no-reply/noreply/postmaster prefix
(`email_is_generic`), the domain is not a known free/personal mail provider,
and either the domain equals or is a subdomain of the site's (nonempty)
registrable domain, or the domain ends with a recognized academic suffix
pattern (`is_academic_domain`). -/
theorem email_allowed_policy_iff (email site_regdom loc dom : String)
    (h : splitFirst '@' email = some (loc, dom)) :
    email_allowed email site_regdom = true ↔
      (email_is_generic loc = false ∧
       PERSONAL_FREE_DOMAINS.contains (toLowerStr dom) = false ∧
       ((site_regdom ≠ "" ∧ (toLowerStr dom = site_regdom ∨
          strEndsWith (toLowerStr dom) ("." ++ site_regdom) = true)) ∨
        is_academic_domain dom = true)) := by
  have hg : email_is_generic (toLowerStr loc) = email_is_generic loc := by
    unfold email_is_generic
    rw [toLowerStr_idem]
  have ha : is_academic_domain (toLowerStr dom) = is_academic_domain dom := by
    unfold is_academic_domain
    show acadSuffixMatch ('.' :: lowerL (lowerL dom.data)) =
      acadSuffixMatch ('.' :: lowerL dom.data)
    rw [lowerL_idem]
  rw [email_allowed_some h, hg, ha]
  by_cases h1 : email_is_generic loc = true
  · simp [h1]
  · simp only [Bool.not_eq_true] at h1
    by_cases h2 : PERSONAL_FREE_DOMAINS.contains (toLowerStr dom) = true
    · simp [h1, h2]
    · simp only [Bool.not_eq_true] at h2
      by_cases h3 : site_regdom ≠ "" ∧ (toLowerStr dom = site_regdom ∨
          strEndsWith (toLowerStr dom) ("." ++ site_regdom) = true)
      · have hc : (decide (site_regdom ≠ "") &&
            (decide (toLowerStr dom = site_regdom) ||
             strEndsWith (toLowerStr dom) ("." ++ site_regdom))) = true := by
          simp only [Bool.and_eq_true, decide_eq_true_eq, Bool.or_eq_true]
          exact ⟨h3.1, h3.2⟩
        simp [h1, h2, hc, h3]
      · have hc : ¬ ((decide (site_regdom ≠ "") &&
            (decide (toLowerStr dom = site_regdom) ||
             strEndsWith (toLowerStr dom) ("." ++ site_regdom))) = true) := by
          simp only [Bool.and_eq_true, decide_eq_true_eq, Bool.or_eq_true]
          exact fun hcon => h3 ⟨hcon.1, hcon.2⟩
        simp only [h1, h2, Bool.false_eq_true, if_false, if_neg hc, h3, false_or]
        simp [h1, h2, h3]

theorem email_allowed_policy_iff_witness :
    email_allowed "j.smith@example.edu" "example.edu" = true :=
  (email_allowed_policy_iff "j.smith@example.edu" "example.edu" "j.smith" "example.edu"
    (by decide)).mpr (by decide)

/-- Claim C4: among candidates passing `email_allowed`, `pick_best_email`
returns the candidate minimizing the composite key (same-registrable-domain
preferred, then academic TLD preferred, then higher name affinity, then
shorter local part capped at 20), the earliest candidate winning ties (it is
the first element of the surviving list whose key equals the minimum); in
particular, for person name "John Smith", candidates
["info@example.edu", "j.smith@example.edu"] and site domain "example.edu" it
returns "j.smith@example.edu". -/
theorem pick_best_email_min_spec :
    (∀ (name : String) (emails : List String) (site_regdom : String),
      emails.filter (fun e => email_allowed e site_regdom) ≠ [] →
      (pick_best_email name emails site_regdom ∈
          emails.filter (fun e => email_allowed e site_regdom) ∧
        (∀ c ∈ emails.filter (fun e => email_allowed e site_regdom),
          ¬ tupLt (keyOfEmail name site_regdom c)
            (keyOfEmail name site_regdom (pick_best_email name emails site_regdom))) ∧
        (emails.filter (fun e => email_allowed e site_regdom)).find?
          (fun c => decide (keyOfEmail name site_regdom c =
            keyOfEmail name site_regdom (pick_best_email name emails site_regdom))) =
          some (pick_best_email name emails site_regdom))) ∧
    pick_best_email "John Smith" ["info@example.edu", "j.smith@example.edu"] "example.edu" =
      "j.smith@example.edu" :=
  ⟨fun name emails site_regdom hne => pick_best_email_min_general name emails site_regdom hne,
   by decide⟩

theorem pick_best_email_min_spec_witness :
    pick_best_email "John Smith" ["info@example.edu", "j.smith@example.edu"] "example.edu" ∈
      (["info@example.edu", "j.smith@example.edu"].filter
        (fun e => email_allowed e "example.edu")) :=
  (pick_best_email_min_spec.1 "John Smith" ["info@example.edu", "j.smith@example.edu"]
    "example.edu" (by decide)).1

/-- Claim C5: `pick_best_email` returns the empty string whenever no candidate
passes the filtering policy; in particular, for every person name and every
site domain, if every candidate's domain is "gmail.com" (a known free-mail
provider) the result is the empty string. -/
theorem pick_best_email_empty_spec :
    (∀ (name : String) (emails : List String) (site_regdom : String),
      (∀ e ∈ emails, email_allowed e site_regdom = false) →
      pick_best_email name emails site_regdom = "") ∧
    (∀ (name : String) (emails : List String) (site_regdom : String),
      (∀ e ∈ emails, toLowerStr (emailDomain e) = "gmail.com") →
      pick_best_email name emails site_regdom = "") := by
  constructor
  · intro name emails site_regdom h
    exact pick_eq_empty_of_all_rejected name site_regdom emails h
  · intro name emails site_regdom h
    exact pick_eq_empty_of_all_rejected name site_regdom emails
      (fun e he => email_allowed_false_of_gmail (h e he))

theorem pick_best_email_empty_spec_witness :
    pick_best_email "Alice Smith" ["alice@gmail.com"] "example.edu" = "" :=
  pick_best_email_empty_spec.2 "Alice Smith" ["alice@gmail.com"] "example.edu" (by decide)

/-- Claim C6 counterexample: the email de-obfuscation rewrite is not
idempotent.  Stripping the "(remove)" annotation from "a(remove)t" splices the
letters into a fresh "at" token, which only a second application rewrites to
"@": one application gives "at", a second gives "@". -/
theorem deobfuscate_not_idempotent :
    deobfuscate "a(remove)t" = "at" ∧ deobfuscate "at" = "@" ∧
    deobfuscate (deobfuscate "a(remove)t") ≠ deobfuscate "a(remove)t" := by decide

/-- Claim C6 (amended): the de-obfuscation rewrite is not idempotent in
general — deleting a "(remove)"/"(no spam)" annotation (or canonicalizing a
full-width bracket) can create a fresh token that only a second application
rewrites — but a single application is already a fixed point on inputs such as
the specification's Example 1, where idempotence holds. -/
theorem deobfuscate_idempotent_on_example :
    deobfuscate (deobfuscate "john.smith [at] cs.example.edu") =
      deobfuscate "john.smith [at] cs.example.edu" := by decide

/-- Claim C7: on the input text "john.smith [at] cs.example.edu" the email
candidate extractor returns a list containing "john.smith@cs.example.edu". -/
theorem extract_emails_example :
    "john.smith@cs.example.edu" ∈ extract_emails "john.smith [at] cs.example.edu" := by decide

/-- Claim C8: the per-site crawl terminates on pagination self-cycles — for
every listing page (nonempty URL, allowed by robots, fetched successfully and
nonempty) whose "next" link resolves to the listing's own URL, `process_site`
fetches that listing page exactly once and then stops — and in all cases it
fetches at most `MAX_PAGINATION_PAGES` listing pages. -/
theorem process_site_pagination_spec :
    (∀ (env : Env) (site : String) (maxp : Option Nat) (html : String),
      site ≠ "" → env.robots site = true → env.fetch site = some html → html ≠ "" →
      find_next_page (env.anchors html) env.urljoin site = some site →
      (process_site_run env site maxp).listingTrace = [site]) ∧
    (∀ (env : Env) (site : String) (maxp : Option Nat),
      (process_site_run env site maxp).listingTrace.length ≤ MAX_PAGINATION_PAGES) := by
  constructor
  · intro env site maxp html hsite hrob hfetch hhtml hnext
    have key : ∀ f : Nat,
        (siteLoop env (env.regdom site) maxp (f + 1) site [] []).listingTrace = [site] := by
      intro f
      simp only [siteLoop]
      rw [if_neg hsite, if_neg (not_not_intro hrob), hfetch]
      simp only [if_neg hhtml]
      by_cases he : (profilesLoop env (env.regdom site) maxp site
          (env.discover html site) [] [] []).early = true
      · rw [if_pos he]
      · rw [if_neg he]
        simp only [hnext]
        rw [if_pos (Or.inr trivial)]
    exact key 19
  · intro env site maxp
    exact siteLoop_trace_len env (env.regdom site) maxp MAX_PAGINATION_PAGES site [] []

theorem process_site_pagination_spec_witness :
    (process_site_run selfLoopEnv "http://x/list" none).listingTrace = ["http://x/list"] :=
  process_site_pagination_spec.1 selfLoopEnv "http://x/list" none "L"
    (by decide) (by decide) (by decide) (by decide) (by decide)

/-- Claim C9 counterexample: `find_next_page` does NOT return none when the
matched anchor's href resolves to the current page's URL — it returns that URL.
With a single anchor of text "Next" whose href resolves (via the identity
urljoin) to the current page "http://x/p", the function returns
`some "http://x/p"`, not `none`; the cycle guard lives in the caller
`process_site`, which breaks when the returned URL equals the current page. -/
theorem find_next_page_returns_self :
    find_next_page [Anchor.mk false "http://x/p" "Next"] (fun _ h => h) "http://x/p" =
      some "http://x/p" := by decide

/-- Claim C9 (amended): the pagination follower `find_next_page` returns none
when no anchor has a next-relation attribute and no anchor's normalized text
matches the next-page vocabulary; it performs no cycle guard itself — when a
match resolves to the current page's URL it returns that URL, and the cycle is
broken by the caller `process_site`. -/
theorem find_next_page_none_of_no_match (anchors : List Anchor)
    (urljoin : String → String → String) (base : String)
    (h1 : ∀ a ∈ anchors, a.relNext = false)
    (h2 : ∀ a ∈ anchors, nextTextMatches (text_of a.gettext) = false) :
    find_next_page anchors urljoin base = none := by
  unfold find_next_page
  have hf : anchors.find? (fun a => a.relNext) = none := by
    rw [List.find?_eq_none]
    intro a ha
    simp [h1 a ha]
  rw [hf]
  exact nextByText_none urljoin base anchors h2

theorem find_next_page_none_of_no_match_witness :
    find_next_page [Anchor.mk false "http://x/a" "About"] (fun _ h => h) "http://x/p" =
      none :=
  find_next_page_none_of_no_match [Anchor.mk false "http://x/a" "About"] (fun _ h => h)
    "http://x/p" (by decide) (by decide)

/-- Claim C10: within a single invocation of `process_site`, each profile URL
is fetched (and hence parsed) at most once, even when the same link is
rediscovered on a later pagination page of the same site: the visited-URL set
persists across all listing pages, so the trace of profile URLs passed to the
fetcher contains no duplicates. -/
theorem process_site_profile_fetch_once (env : Env) (site : String) (maxp : Option Nat) :
    (process_site_run env site maxp).profileFetches.Nodup :=
  (siteLoop_pf env (env.regdom site) maxp MAX_PAGINATION_PAGES site [] []).1

end Scraper

